import Mathlib

/-!
Verification of the hot-partition sampling subsystem of `db/data_listeners.cc`
and `db/data_listeners.hh` (toppartitions): a shallow embedding of the listener
registry, the toppartitions data listener, and the `toppartitions_query`
scatter/sleep/gather coordinator, with theorems checking the natural-language
specification against the code.

Modelling conventions:
- `utils::UUID` is modelled as `Nat`;
- `sstring` as `String`;
- `schema_ptr` as `Option Schema` (the null pointer is `none`, checked by
  `is_applicable` via `!!s`);
- a `flat_mutation_reader` as the list of partitions it emits, each carrying
  its decorated partition key and its row contents; wrapping a reader with
  `make_filtering_reader` is modelled eagerly as the function from the input
  partition list and the filter state to the emitted partition list and the
  final filter state;
- seastar futures are modelled by explicit state passing: `invoke_on_all`
  applies the per-shard operation to every shard, `map_reduce0` is a fold of
  the reduce function over the per-shard map results, and `.then`
  continuations run only when the previous step succeeded.
-/

namespace Db

/-! ## Space-saving top-k estimator -/

/-- Modelled from the spec: `utils::space_saving_top_k<sstring>`
(`utils/top_k.hh`) is not among the provided sources, only its uses in
`db/data_listeners.cc`/`.hh`. Per spec §4.1 an entry tracks a key together
with its count and its over-count error bound. -/
structure TopKEntry where
  item : String
  count : Nat
  error : Nat
deriving DecidableEq, Repr

/-- Modelled from the spec: the estimator state is a capacity bound
`k_capacity` fixed at construction and a mapping from key to
(count, error) pairs holding at most `k_capacity` entries (spec §3, §4.1). -/
structure TopK where
  capacity : Nat
  entries : List TopKEntry
deriving DecidableEq, Repr

/-- An estimator with capacity `k` and no recorded keys (the state in which
`space_saving_top_k<sstring>(k)` is constructed). -/
def TopK.empty (k : Nat) : TopK := ⟨k, []⟩

/-- Increment the count of the (already tracked) key `k` by `c`, in place. -/
def bumpEntry (k : String) (c : Nat) : List TopKEntry → List TopKEntry
  | [] => []
  | e :: es =>
    if e.item = k then { e with count := e.count + c } :: es
    else e :: bumpEntry k c es

/-- The first entry of minimal count (the eviction victim under
Space-Saving). -/
def minEntry : List TopKEntry → Option TopKEntry
  | [] => none
  | e :: es =>
    match minEntry es with
    | none => some e
    | some m => if e.count ≤ m.count then some e else some m

/-- Remove the first occurrence of entry `m` from the list. -/
def removeOnce (m : TopKEntry) : List TopKEntry → List TopKEntry
  | [] => []
  | e :: es => if e = m then es else e :: removeOnce m es

/-- Modelled from the spec: weighted `append(item, count)` of
`space_saving_top_k` (spec §4.1): increment the tracked count if the key is
tracked; otherwise insert it, evicting the minimal-count entry when the
capacity bound would be exceeded, the incoming key inheriting the evicted
count (plus the increment) with the evicted count as its over-count bound. -/
def TopK.appendW (t : TopK) (k : String) (c : Nat) : TopK :=
  if (t.entries.any (fun e => e.item = k)) then
    ⟨t.capacity, bumpEntry k c t.entries⟩
  else if t.entries.length < t.capacity then
    ⟨t.capacity, t.entries ++ [⟨k, c, 0⟩]⟩
  else
    match minEntry t.entries with
    | none => t
    | some m => ⟨t.capacity, removeOnce m t.entries ++ [⟨k, m.count + c, m.count⟩]⟩

/-- Modelled from the spec: `append(item)` records one observation of `item`
(spec §4.1 `record(key)`). -/
def TopK.append1 (t : TopK) (k : String) : TopK := t.appendW k 1

/-- Insert an entry into a list sorted by descending count. -/
def insertDesc (e : TopKEntry) : List TopKEntry → List TopKEntry
  | [] => [e]
  | x :: xs => if e.count ≤ x.count then x :: insertDesc e xs else e :: x :: xs

/-- Modelled from the spec: `top(n)` returns up to `n` entries sorted by
descending count with a deterministic tie order (spec §4.1). -/
def TopK.top (t : TopK) (n : Nat) : List TopKEntry :=
  (t.entries.foldr insertDesc []).take n

/-- The sum of all tracked counts: the total weight the estimator has
absorbed. -/
def TopK.totalCount (t : TopK) : Nat :=
  (t.entries.map (fun e => e.count)).sum

/-! ## Schema, mutations, readers -/

/-- A table schema, reduced to what `is_applicable` inspects:
`s->ks_name()` and `s->cf_name()`. -/
structure Schema where
  ks_name : String
  cf_name : String
deriving DecidableEq, Repr

/-- A `frozen_mutation`, reduced to what `on_write` extracts from it: the
partition key `m.key(*s)`, modelled by its byte representation. -/
structure FrozenMutation where
  key : String
deriving DecidableEq, Repr

/-- One partition emitted by a `flat_mutation_reader`: its decorated
partition key (by representation) and its row contents. -/
structure Partition where
  key : String
  rows : List String
deriving DecidableEq, Repr

/-- The hex rendering `to_hex` applied to a key representation, one byte at
a time. -/
def hexDigit (n : Nat) : Char :=
  if n < 10 then Char.ofNat (48 + n) else Char.ofNat (87 + n)

/-- Hex rendering of one byte (two hex digits). -/
def hexByte (c : Char) : List Char :=
  [hexDigit (c.toNat / 16 % 16), hexDigit (c.toNat % 16)]

/-- The `to_hex` rendering of a key representation. -/
def to_hex (s : String) : String :=
  String.mk (s.data.foldr (fun c acc => hexByte c ++ acc) [])

/-- The state of `make_filtering_reader(rd, pred)` once fully drained: the
predicate runs on each partition's decorated key in stream order, threading
a state `σ`, and the partition is emitted iff the predicate returns true. -/
def make_filtering_reader {σ : Type} (pred : σ → String → σ × Bool) :
    List Partition → σ → List Partition × σ
  | [], st => ([], st)
  | p :: ps, st =>
    let (st', keep) := pred st p.key
    let (ps', st'') := make_filtering_reader pred ps st'
    (if keep then p :: ps' else ps', st'')

/-! ## Listeners -/

/-- The state of a `toppartitions_data_listener`
(`db/data_listeners.hh:115-134`): the query id it was tagged with, the
keyspace/table filter, and the two estimators. -/
structure ToppListener where
  query_id : Nat
  ks : String
  cf : String
  top_k_read : TopK
  top_k_write : TopK
deriving DecidableEq, Repr

/-- An installed `data_listener`: either a `toppartitions_data_listener` or a
plain base-class listener (default hooks: `on_write` is a no-op, `on_read`
is the identity, `is_applicable` is true). -/
inductive DataListener where
  | topp (t : ToppListener)
  | base (i : Nat)
deriving DecidableEq, Repr

/-- `data_listener::id()`. -/
def DataListener.idOf : DataListener → Nat
  | .topp t => t.query_id
  | .base i => i

/-- `is_applicable`: the base class returns true
(`db/data_listeners.hh:68`); `toppartitions_data_listener` overrides it
with `!!s && s->ks_name() == _ks && s->cf_name() == _cf`
(`db/data_listeners.hh:122-124`). -/
def DataListener.is_applicable : DataListener → Option Schema → Bool
  | .base _, _ => true
  | .topp _, none => false
  | .topp t, some s => s.ks_name = t.ks && s.cf_name = t.cf

/-- `toppartitions_data_listener::on_write`
(`db/data_listeners.cc:101-107`): record `to_hex(m.key(*s).representation())`
into the write estimator; the base-class hook is a no-op. Applicability is
checked by the registry, not here. -/
def DataListener.on_write_hook : DataListener → Option Schema → FrozenMutation → DataListener
  | .topp t, _, m => .topp { t with top_k_write := t.top_k_write.append1 (to_hex m.key) }
  | .base i, _, _ => .base i

/-- `partition_counting_listener::on_read` (`db/data_listeners.cc:38-44`)
as specialised by `toppartitions_data_listener::on_read`
(`db/data_listeners.cc:93-99`): wrap the reader so each decorated key is
appended (hex-rendered) to the read estimator and the partition is kept;
the base-class `on_read` returns the reader unchanged. -/
def DataListener.on_read_wrap : DataListener → Option Schema → List Partition → DataListener × List Partition
  | .topp t, _, rd =>
    let (rd', est) :=
      make_filtering_reader (fun est k => (TopK.append1 est (to_hex k), true)) rd t.top_k_read
    (.topp { t with top_k_read := est }, rd')
  | .base i, _, rd => (.base i, rd)

/-! ## Per-shard listener registry (`data_listeners`) -/

/-- `data_listeners::install` (`db/data_listeners.cc:46-49`): push the
listener at the back of `_listeners`, unconditionally. -/
def install (ls : List DataListener) (l : DataListener) : List DataListener :=
  ls ++ [l]

/-- `data_listeners::uninstall` (`db/data_listeners.cc:51-61`): sweep
`_listeners`, erasing every listener whose id equals `id`. -/
def uninstall (id : Nat) : List DataListener → List DataListener
  | [] => []
  | l :: ls => if l.idOf = id then uninstall id ls else l :: uninstall id ls

/-- `data_listeners::on_write` (`db/data_listeners.cc:81-87`): for each
installed listener, in order, invoke its write hook iff it is applicable to
the schema. -/
def data_listeners_on_write : List DataListener → Option Schema → FrozenMutation → List DataListener
  | [], _, _ => []
  | l :: ls, s, m =>
    (if l.is_applicable s then l.on_write_hook s m else l) :: data_listeners_on_write ls s m

/-- `data_listeners::on_read` (`db/data_listeners.cc:71-79`): fold over the
installed listeners, each applicable listener wrapping the reader produced
so far. -/
def data_listeners_on_read (s : Option Schema) :
    List DataListener → List Partition → List DataListener × List Partition
  | [], rd => ([], rd)
  | l :: ls, rd =>
    let (l', rd') := if l.is_applicable s then l.on_read_wrap s rd else (l, rd)
    let (ls', rd'') := data_listeners_on_read s ls rd'
    (l' :: ls', rd'')

/-! ## The toppartitions query coordinator (`toppartitions_query`) -/

/-- `toppartitions_query::results` (`db/data_listeners.hh:154-188`): a size
and two merged estimators, each constructed with capacity `k`. -/
structure QueryResults where
  size : Nat
  top_k_read : TopK
  top_k_write : TopK
deriving DecidableEq, Repr

/-- `results(k)`: `size(k), top_k_read(k), top_k_write(k)`. -/
def QueryResults.init (k : Nat) : QueryResults :=
  ⟨k, TopK.empty k, TopK.empty k⟩

/-- The process-wide state the coordinator touches: the key set of the
static map `toppartitions_query::_queries` (`db/data_listeners.cc:109`) and
every shard's `data_listeners::_listeners`. -/
structure SysState where
  queries : List Nat
  shards : List (List DataListener)
deriving DecidableEq, Repr

/-- `_queries.try_emplace(q->id(), q)` (`db/data_listeners.cc:164`): insert
the id unless it is already present. -/
def tryEmplace (qs : List Nat) (id : Nat) : List Nat :=
  if id ∈ qs then qs else qs ++ [id]

/-- The fresh `toppartitions_data_listener(_id, _ks, _cf)` that `scatter`
installs (`db/data_listeners.cc:120`); its estimators start empty with the
default `space_saving_top_k` capacity 256. -/
def freshToppListener (id : Nat) (ks cf : String) : DataListener :=
  .topp ⟨id, ks, cf, TopK.empty 256, TopK.empty 256⟩

/-- `toppartitions_query::scatter` (`db/data_listeners.cc:118-122`):
`invoke_on_all` installs a fresh tagged listener on every shard. -/
def scatter (st : SysState) (id : Nat) (ks cf : String) : SysState :=
  { st with shards := st.shards.map (fun sh => install sh (freshToppListener id ks cf)) }

/-- The per-shard map step of `toppartitions_query::gather`
(`db/data_listeners.cc:129-145`): walk the shard's listeners; skip those
whose id differs from the session id and those that are not
`toppartitions_data_listener` (failed `dynamic_cast`); return the first
match's read/write tops; a shard with no match contributes the
default-constructed (empty) pair. -/
def gatherMap (id : Nat) (res_size : Nat) : List DataListener → List TopKEntry × List TopKEntry
  | [] => ([], [])
  | l :: ls =>
    match l with
    | .base _ => gatherMap id res_size ls
    | .topp t =>
      if t.query_id ≠ id then gatherMap id res_size ls
      else (t.top_k_read.top res_size, t.top_k_write.top res_size)

/-- The reduce step of `toppartitions_query::gather`
(`db/data_listeners.cc:147-155`): append each harvested `(item, count)` into
the accumulated results with the weighted `append`. -/
def gatherReduce (res : QueryResults) (rd_wr : List TopKEntry × List TopKEntry) : QueryResults :=
  { res with
    top_k_read := rd_wr.1.foldl (fun t e => t.appendW e.item e.count) res.top_k_read
    top_k_write := rd_wr.2.foldl (fun t e => t.appendW e.item e.count) res.top_k_write }

/-- `toppartitions_query::gather` over a list of shards
(`db/data_listeners.cc:126-157`): `map_reduce0` of `gatherMap` with initial
value `results{res_size}` and reducer `gatherReduce`. No listener is
uninstalled by this function. -/
def gatherShards (id : Nat) (res_size : Nat) (shards : List (List DataListener)) : QueryResults :=
  shards.foldl (fun res sh => gatherReduce res (gatherMap id res_size sh)) (QueryResults.init res_size)

/-- `boost::lexical_cast<unsigned>(duration)`
(`db/data_listeners.cc:162`), with stream `num_get` semantics: the field is
an optional single sign followed by decimal digits; a leading `-` is
accepted and the value wraps modulo 2^32 (so "-1" reads as 4294967295) and
a leading `+` is accepted as is; a magnitude outside the 32-bit unsigned
range, a non-numeric field, a bare sign or an empty field throw
`bad_lexical_cast` (here `none`). -/
def parseDuration (s : String) : Option Nat :=
  match s.data with
  | [] => none
  | c :: cs =>
    let (neg, digits) :=
      if c = '-' then (true, cs)
      else if c = '+' then (false, cs)
      else (false, c :: cs)
    if digits.isEmpty then none
    else if digits.all (fun c => c.isDigit) then
      let n := digits.foldl (fun n c => n * 10 + (c.toNat - 48)) 0
      if n < 2 ^ 32 then some (if neg then (2 ^ 32 - n) % 2 ^ 32 else n)
      else none
    else none

/-- `toppartitions_query::run` (`db/data_listeners.cc:159-173`): parse the
duration (throwing `std::invalid_argument` synchronously on failure, before
any other effect), mint the query (its fresh time-UUID modelled by the
parameter `newId`), `try_emplace` it into `_queries`, then
`scatter().then(sleep(duration).then(gather()))`. The returned pair is the
system state once the returned future has resolved together with the
future's outcome. Nothing on any path of `run` uninstalls listeners or
erases from `_queries`. -/
def toppartitions_query_run (st : SysState) (ks cf duration : String) (newId : Nat) :
    SysState × Except String QueryResults :=
  match parseDuration duration with
  | none => (st, .error "duration should be numeric")
  | some _d =>
    let st1 : SysState := { st with queries := tryEmplace st.queries newId }
    let st2 := scatter st1 newId ks cf
    (st2, .ok (gatherShards newId 256 st2.shards))

/-- `scatter` under failure injection: seastar's `invoke_on_all` submits the
install to every shard; a shard on which the submitted operation throws
(modelled by `fails`) installs nothing, the other shards install normally,
and the combined future fails iff some shard failed. -/
def scatterF (st : SysState) (id : Nat) (ks cf : String) (fails : Nat → Bool) :
    SysState × Bool :=
  ({ st with
      shards := (st.shards.zip (List.range st.shards.length)).map
        (fun p => if fails p.2 then p.1 else install p.1 (freshToppListener id ks cf)) },
   (List.range st.shards.length).all (fun i => !(fails i)))

/-- `toppartitions_query::run` when the scatter broadcast fails on some
shards: the `.then` continuation (sleep and gather) is skipped and the
future resolves with the scatter error; no compensating uninstall runs on
any path. -/
def toppartitions_query_runF (st : SysState) (ks cf duration : String) (newId : Nat)
    (fails : Nat → Bool) : SysState × Except String QueryResults :=
  match parseDuration duration with
  | none => (st, .error "duration should be numeric")
  | some _d =>
    let st1 : SysState := { st with queries := tryEmplace st.queries newId }
    let (st2, ok) := scatterF st1 newId ks cf fails
    if ok then (st2, .ok (gatherShards newId 256 st2.shards))
    else (st2, .error "scatter failed")

/-- Decidable equality for modelled future outcomes. -/
instance exceptDecEq {ε α : Type} [DecidableEq ε] [DecidableEq α] :
    DecidableEq (Except ε α) := fun x y =>
  match x, y with
  | .ok a, .ok b =>
    if h : a = b then .isTrue (by rw [h])
    else .isFalse (fun hc => h (Except.ok.inj hc))
  | .error a, .error b =>
    if h : a = b then .isTrue (by rw [h])
    else .isFalse (fun hc => h (Except.error.inj hc))
  | .ok _, .error _ => .isFalse (fun hc => Except.noConfusion hc)
  | .error _, .ok _ => .isFalse (fun hc => Except.noConfusion hc)

/-! ## Helper lemmas about `uninstall` -/

/-- After `uninstall id`, no remaining listener carries `id`. -/
theorem uninstall_all_ne (id : Nat) (ls : List DataListener) :
    ∀ l ∈ uninstall id ls, l.idOf ≠ id := by
  induction ls with
  | nil => intro l h; cases h
  | cons x xs ih =>
    intro l hl
    by_cases hx : x.idOf = id
    · simp only [uninstall, hx, if_pos rfl] at hl
      exact ih l hl
    · simp only [uninstall, if_neg hx] at hl
      rcases List.mem_cons.mp hl with rfl | hl
      · exact hx
      · exact ih l hl

/-- `uninstall id` is the identity on a registry with no matching listener. -/
theorem uninstall_of_all_ne (id : Nat) (ls : List DataListener)
    (h : ∀ l ∈ ls, l.idOf ≠ id) : uninstall id ls = ls := by
  induction ls with
  | nil => rfl
  | cons x xs ih =>
    have hx : x.idOf ≠ id := h x (List.mem_cons_self x xs)
    simp only [uninstall, if_neg hx]
    exact congrArg (x :: ·) (ih (fun l hl => h l (List.mem_cons_of_mem x hl)))

/-! ## Helper lemmas about the estimator's total weight -/

/-- Bumping a tracked key adds exactly its increment to the sum of counts. -/
theorem sum_bumpEntry (k : String) (c : Nat) (l : List TopKEntry)
    (h : l.any (fun e => e.item = k) = true) :
    ((bumpEntry k c l).map (fun e => e.count)).sum
      = (l.map (fun e => e.count)).sum + c := by
  induction l with
  | nil => simp at h
  | cons e es ih =>
    by_cases he : e.item = k
    · simp only [bumpEntry, if_pos he, List.map_cons, List.sum_cons]
      omega
    · have hes : es.any (fun e => e.item = k) = true := by
        simpa [List.any_cons, he] using h
      simp only [bumpEntry, if_neg he, List.map_cons, List.sum_cons, ih hes]
      omega

/-- A nonempty entry list always yields an eviction victim. -/
theorem minEntry_isSome (e : TopKEntry) (es : List TopKEntry) :
    (minEntry (e :: es)).isSome = true := by
  simp only [minEntry]
  cases minEntry es with
  | none => rfl
  | some m => by_cases h : e.count ≤ m.count <;> simp [h]

/-- The eviction victim is one of the entries. -/
theorem minEntry_mem : ∀ {l : List TopKEntry} {m : TopKEntry},
    minEntry l = some m → m ∈ l := by
  intro l
  induction l with
  | nil => intro m h; cases h
  | cons e es ih =>
    intro m h
    cases hes : minEntry es with
    | none =>
      simp only [minEntry, hes] at h
      cases h; exact List.mem_cons_self e es
    | some m' =>
      simp only [minEntry, hes] at h
      by_cases hle : e.count ≤ m'.count
      · rw [if_pos hle] at h; cases h; exact List.mem_cons_self e es
      · rw [if_neg hle] at h; cases h; exact List.mem_cons_of_mem e (ih hes)

/-- Removing one occurrence of a member splits the sum of counts. -/
theorem sum_removeOnce (m : TopKEntry) (l : List TopKEntry) (h : m ∈ l) :
    (l.map (fun e => e.count)).sum
      = m.count + ((removeOnce m l).map (fun e => e.count)).sum := by
  induction l with
  | nil => cases h
  | cons e es ih =>
    by_cases he : e = m
    · subst he
      simp [removeOnce]
    · have hm : m ∈ es := by
        rcases List.mem_cons.mp h with rfl | hm
        · exact absurd rfl he
        · exact hm
      simp only [removeOnce, if_neg he, List.map_cons, List.sum_cons, ih hm]
      omega

/-- On an estimator of positive capacity, every weighted append adds exactly
its weight to the total count — whether the key was tracked, inserted
fresh, or inserted by evicting the minimal entry. -/
theorem totalCount_appendW (t : TopK) (k : String) (c : Nat)
    (hcap : 0 < t.capacity) :
    (t.appendW k c).totalCount = t.totalCount + c := by
  unfold TopK.appendW TopK.totalCount
  by_cases htr : t.entries.any (fun e => e.item = k) = true
  · simp only [htr, if_pos rfl]
    exact sum_bumpEntry k c t.entries htr
  · simp only [htr]
    rw [if_neg (by simp [htr])]
    by_cases hlen : t.entries.length < t.capacity
    · simp [if_pos hlen]
    · rw [if_neg hlen]
      have hne : t.entries ≠ [] := by
        intro hnil
        rw [hnil] at hlen
        exact hlen (by simpa using hcap)
      cases hm : minEntry t.entries with
      | none =>
        exfalso
        cases hent : t.entries with
        | nil => exact hne hent
        | cons a as =>
          have hs := minEntry_isSome a as
          rw [hent] at hm
          rw [hm] at hs
          simp at hs
      | some m =>
        have hmem : m ∈ t.entries := minEntry_mem hm
        have hsum := sum_removeOnce m t.entries hmem
        simp only [List.map_append, List.sum_append, List.map_cons, List.sum_cons,
          List.map_nil, List.sum_nil]
        omega

/-- Appending never changes the capacity bound. -/
theorem capacity_appendW (t : TopK) (k : String) (c : Nat) :
    (t.appendW k c).capacity = t.capacity := by
  unfold TopK.appendW
  by_cases htr : t.entries.any (fun e => e.item = k) = true
  · simp [htr]
  · simp only [htr]
    rw [if_neg (by simp [htr])]
    by_cases hlen : t.entries.length < t.capacity
    · simp [if_pos hlen]
    · rw [if_neg hlen]
      cases hm : minEntry t.entries with
      | none => rfl
      | some m => rfl

/-! ## Helper lemmas about the write path -/

/-- The total write weight a listener has absorbed (zero for a base-class
listener, which has no estimator). -/
def listenerWriteTotal : DataListener → Nat
  | .topp t => t.top_k_write.totalCount
  | .base _ => 0

/-- The registry's write loop, listener by listener: each applicable
listener's hook is applied exactly once, each non-applicable listener is
left untouched. -/
theorem data_listeners_on_write_eq_map (ls : List DataListener) (s : Option Schema)
    (m : FrozenMutation) :
    data_listeners_on_write ls s m
      = ls.map (fun l => if l.is_applicable s then l.on_write_hook s m else l) := by
  induction ls with
  | nil => rfl
  | cons x xs ih => simp only [data_listeners_on_write, List.map_cons, ih]

/-! ## Claims -/

/-- C9: for every registry state and every id, `uninstall id` removes all
listeners whose id matches, is a no-op rather than an error when no
listener matches, and is idempotent: running it twice leaves the registry
as running it once does (`data_listeners::uninstall`,
`db/data_listeners.cc:51-61`). -/
theorem c9_uninstall_removes_all_noop_idempotent (id : Nat) (ls : List DataListener) :
    (∀ l ∈ uninstall id ls, l.idOf ≠ id) ∧
    ((∀ l ∈ ls, l.idOf ≠ id) → uninstall id ls = ls) ∧
    uninstall id (uninstall id ls) = uninstall id ls :=
  ⟨uninstall_all_ne id ls, uninstall_of_all_ne id ls,
   uninstall_of_all_ne id (uninstall id ls) (uninstall_all_ne id ls)⟩

/-- C9 witness: the no-op clause evaluated on a concrete registry holding
one non-matching listener. -/
theorem c9_witness :
    uninstall 5 [DataListener.base 1] = [DataListener.base 1] :=
  (c9_uninstall_removes_all_noop_idempotent 5 [DataListener.base 1]).2.1 (by decide)

/-- C4: an unparsable duration makes `run` fail synchronously with the
invalid-argument error, before the scatter broadcast: the system state —
every shard's registry and the process-wide `_queries` table — is returned
exactly as it was (`toppartitions_query::run`,
`db/data_listeners.cc:159-173`: `boost::lexical_cast` runs before
`try_emplace` and `scatter`). -/
theorem c4_invalid_duration_rejected_before_scatter
    (st : SysState) (ks cf d : String) (newId : Nat)
    (h : parseDuration d = none) :
    toppartitions_query_run st ks cf d newId
      = (st, .error "duration should be numeric") := by
  simp [toppartitions_query_run, h]

/-- C4 witness: the non-numeric duration "abc" on a concrete one-shard
state leaves the state untouched and reports the usage error. -/
theorem c4_witness :
    parseDuration "abc" = none ∧
    toppartitions_query_run ⟨[], [[]]⟩ "ks" "t1" "abc" 3
      = (⟨[], [[]]⟩, .error "duration should be numeric") :=
  ⟨by decide,
   c4_invalid_duration_rejected_before_scatter ⟨[], [[]]⟩ "ks" "t1" "abc" 3 (by decide)⟩

/-- C1 (code bug): a complete, fully successful run — scatter installed the
session listener on both shards and gather collected and merged without
error — still leaves the listener tagged with the session id 7 installed on
every shard: nothing in `gather` (`db/data_listeners.cc:126-157`) or `run`
(`db/data_listeners.cc:159-173`) uninstalls it (the helper
`uninstall_from_all_shards`, `db/data_listeners.cc:64-68`, is never
called), contradicting the specified guarantee that listeners never outlive
their session. -/
theorem c1_gather_leaves_listener_installed :
    (toppartitions_query_run ⟨[], [[], []]⟩ "ks" "t1" "5" 7).2
      = .ok (QueryResults.init 256) ∧
    (toppartitions_query_run ⟨[], [[], []]⟩ "ks" "t1" "5" 7).1.shards
      = [[freshToppListener 7 "ks" "t1"], [freshToppListener 7 "ks" "t1"]] := by
  decide

/-- C3 (code bug): after the future returned by `run` resolves
(successfully here), the process-wide `_queries` table still contains the
session's id: `run` inserts via `try_emplace` (`db/data_listeners.cc:164`)
and no code path ever erases the entry, contradicting the specified
removal of the SessionId on completion or failure. -/
theorem c3_session_table_not_cleared :
    (toppartitions_query_run ⟨[], [[]]⟩ "ks" "t1" "5" 7).1.queries = [7] ∧
    (toppartitions_query_run ⟨[], [[]]⟩ "ks" "t1" "5" 7).2
      = .ok (QueryResults.init 256) := by
  decide

/-- C2 (code bug): when the install broadcast fails on shard 1 after
succeeding on shard 0, the session fails (the future resolves with the
scatter error, so the claimed failure reporting does happen) but shard 0 is
left holding the session's listener: `run` (`db/data_listeners.cc:159-173`)
has no compensating uninstall on the scatter-failure path, contradicting
the specified rollback of partial installs. -/
theorem c2_scatter_failure_no_rollback :
    (toppartitions_query_runF ⟨[], [[], []]⟩ "ks" "t1" "5" 7 (fun i => i == 1)).2
      = .error "scatter failed" ∧
    (toppartitions_query_runF ⟨[], [[], []]⟩ "ks" "t1" "5" 7 (fun i => i == 1)).1.shards
      = [[freshToppListener 7 "ks" "t1"], []] := by
  decide

/-- C7: for every write event delivered to a shard's registry, `on_write`
(`db/data_listeners.cc:81-87`) invokes the write hook of every applicable
listener exactly once (each listener is mapped through its hook precisely
when `is_applicable` holds) and leaves every non-applicable listener
untouched; the hook is a pure side channel — the registry returns no value
to the write path, so the mutation cannot be altered or blocked — and one
applicable invocation adds exactly one observation to the write
estimator. -/
theorem c7_on_write_applicable_exactly_once (ls : List DataListener) (s : Option Schema)
    (m : FrozenMutation) :
    data_listeners_on_write ls s m
      = ls.map (fun l => if l.is_applicable s then l.on_write_hook s m else l) ∧
    (∀ t : ToppListener, 0 < t.top_k_write.capacity →
      listenerWriteTotal ((DataListener.topp t).on_write_hook s m)
        = listenerWriteTotal (DataListener.topp t) + 1) := by
  refine ⟨data_listeners_on_write_eq_map ls s m, ?_⟩
  intro t hcap
  simp only [DataListener.on_write_hook, listenerWriteTotal, TopK.append1]
  exact totalCount_appendW _ _ _ hcap

/-- C7 witness: one applicable write on a concrete fresh listener bumps its
write total from 0 to 1. -/
theorem c7_witness :
    listenerWriteTotal ((DataListener.topp ⟨3, "ks", "t1", TopK.empty 256, TopK.empty 256⟩).on_write_hook
        (some ⟨"ks", "t1"⟩) ⟨"a"⟩)
      = listenerWriteTotal (DataListener.topp ⟨3, "ks", "t1", TopK.empty 256, TopK.empty 256⟩) + 1 :=
  (c7_on_write_applicable_exactly_once [] (some ⟨"ks", "t1"⟩) ⟨"a"⟩).2
    ⟨3, "ks", "t1", TopK.empty 256, TopK.empty 256⟩ (by decide)

/-! ## Delivering a sequence of writes through the registry -/

/-- A sequence of write events, each carrying the schema seen by the
registry and the frozen mutation, folded through
`data_listeners::on_write` in order. -/
def deliverWrites (ls : List DataListener) (es : List (Option Schema × FrozenMutation)) :
    List DataListener :=
  es.foldl (fun acc e => data_listeners_on_write acc e.1 e.2) ls

/-- The effect of one registry write on one listener: the hook fires iff
the listener is applicable. -/
def applyWrite (l : DataListener) (e : Option Schema × FrozenMutation) : DataListener :=
  if l.is_applicable e.1 then l.on_write_hook e.1 e.2 else l

/-- Delivering events to a single-listener registry folds `applyWrite` over
the events. -/
theorem deliverWrites_singleton (l : DataListener)
    (es : List (Option Schema × FrozenMutation)) :
    deliverWrites [l] es = [es.foldl applyWrite l] := by
  induction es generalizing l with
  | nil => rfl
  | cons e es ih =>
    show deliverWrites [applyWrite l e] es = _
    rw [ih (applyWrite l e)]
    rfl

/-- A toppartitions listener with positive write capacity absorbs exactly
one unit of write weight per applicable event: after any event sequence the
write total has grown by the number of events its applicability predicate
accepted. -/
theorem foldl_applyWrite_topp (es : List (Option Schema × FrozenMutation)) :
    ∀ t : ToppListener, 0 < t.top_k_write.capacity →
    ∃ t' : ToppListener,
      es.foldl applyWrite (.topp t) = .topp t' ∧
      t'.top_k_write.totalCount
        = t.top_k_write.totalCount
          + es.countP (fun e => (DataListener.topp t).is_applicable e.1) := by
  induction es with
  | nil => intro t _; exact ⟨t, rfl, by simp⟩
  | cons e es ih =>
    intro t hcap
    by_cases ha : (DataListener.topp t).is_applicable e.1 = true
    · have h1 : applyWrite (.topp t) e
          = .topp { t with top_k_write := t.top_k_write.append1 (to_hex e.2.key) } := by
        simp [applyWrite, ha, DataListener.on_write_hook]
      have hcap1 : 0 < ({ t with top_k_write := t.top_k_write.append1 (to_hex e.2.key) }
          : ToppListener).top_k_write.capacity := by
        simpa [TopK.append1, capacity_appendW] using hcap
      obtain ⟨t', he, hc⟩ := ih _ hcap1
      refine ⟨t', by rw [List.foldl_cons, h1, he], ?_⟩
      have hproj : ({ t with top_k_write := t.top_k_write.append1 (to_hex e.2.key) }
          : ToppListener).top_k_write = t.top_k_write.append1 (to_hex e.2.key) := rfl
      have happ : ∀ x : Option Schema × FrozenMutation,
          (DataListener.topp { t with top_k_write := t.top_k_write.append1 (to_hex e.2.key) }
            : DataListener).is_applicable x.1
          = (DataListener.topp t).is_applicable x.1 := by
        intro x; cases x.1 <;> rfl
      simp only [hproj, happ] at hc
      rw [hc, List.countP_cons]
      have hone : (t.top_k_write.append1 (to_hex e.2.key)).totalCount
          = t.top_k_write.totalCount + 1 := totalCount_appendW _ _ _ hcap
      simp only [ha, if_true]
      omega
    · have h1 : applyWrite (.topp t) e = .topp t := by
        simp [applyWrite, ha]
      obtain ⟨t', he, hc⟩ := ih t hcap
      refine ⟨t', by rw [List.foldl_cons, h1, he], ?_⟩
      rw [hc, List.countP_cons]
      rw [Bool.not_eq_true] at ha
      simp only [ha, Bool.false_eq_true, if_false]
      omega

/-- C5: a hot-partition listener installed for `ks.t1` never counts a
write delivered for any other table: for any interleaved sequence of
registry writes targeting `ks.t1` and `ks.t2` (with `t1 ≠ t2`), the
listener's total write count equals the number of `ks.t1` writes, not the
total (`toppartitions_data_listener::is_applicable`,
`db/data_listeners.hh:122-124`, checked by `data_listeners::on_write`,
`db/data_listeners.cc:81-87`). -/
theorem c5_no_cross_table_leakage (newId : Nat) (ks tbl1 tbl2 : String)
    (es : List (Option Schema × FrozenMutation))
    (hne : tbl1 ≠ tbl2)
    (hes : ∀ e ∈ es, e.1 = some ⟨ks, tbl1⟩ ∨ e.1 = some ⟨ks, tbl2⟩) :
    (deliverWrites [freshToppListener newId ks tbl1] es).map listenerWriteTotal
      = [es.countP (fun e => e.1 = some (Schema.mk ks tbl1))] := by
  rw [show freshToppListener newId ks tbl1
      = .topp ⟨newId, ks, tbl1, TopK.empty 256, TopK.empty 256⟩ from rfl]
  rw [deliverWrites_singleton]
  obtain ⟨t', he, hc⟩ :=
    foldl_applyWrite_topp es ⟨newId, ks, tbl1, TopK.empty 256, TopK.empty 256⟩
      (by simp [TopK.empty])
  rw [he]
  simp only [List.map_cons, List.map_nil, listenerWriteTotal]
  rw [hc]
  have h0 : (TopK.empty 256).totalCount = 0 := rfl
  rw [h0, Nat.zero_add]
  congr 1
  apply List.countP_congr
  intro e hemem
  rcases hes e hemem with h | h <;>
    simp [h, DataListener.is_applicable, hne, Ne.symm hne]

/-- C5 witness: two writes to `ks.t1` interleaved with one write to
`ks.t2` leave the `ks.t1` listener with write total 2, not 3. -/
theorem c5_witness :
    (deliverWrites [freshToppListener 3 "ks" "t1"]
        [(some ⟨"ks", "t1"⟩, ⟨"a"⟩), (some ⟨"ks", "t2"⟩, ⟨"b"⟩),
         (some ⟨"ks", "t1"⟩, ⟨"c"⟩)]).map listenerWriteTotal
      = [2] :=
  (c5_no_cross_table_leakage 3 "ks" "t1" "t2"
      [(some ⟨"ks", "t1"⟩, ⟨"a"⟩), (some ⟨"ks", "t2"⟩, ⟨"b"⟩),
       (some ⟨"ks", "t1"⟩, ⟨"c"⟩)]
      (by decide) (by decide)).trans (by decide)

/-! ## Helper lemmas about the gather phase -/

/-- The per-shard harvest skips over any prefix of listeners none of which
carries the session id. -/
theorem gatherMap_append_no_match (id n : Nat) (pre rest : List DataListener)
    (h : ∀ l ∈ pre, l.idOf ≠ id) :
    gatherMap id n (pre ++ rest) = gatherMap id n rest := by
  induction pre with
  | nil => rfl
  | cons l ls ih =>
    have htail : ∀ x ∈ ls, x.idOf ≠ id := fun x hx => h x (List.mem_cons_of_mem l hx)
    cases l with
    | base i =>
      simpa only [List.cons_append, gatherMap] using ih htail
    | topp t =>
      have hne : t.query_id ≠ id := h (.topp t) (List.mem_cons_self _ _)
      simp only [List.cons_append, gatherMap, if_pos hne]
      exact ih htail

/-- A shard with no listener carrying the session id harvests to the
default-constructed empty pair. -/
theorem gatherMap_of_no_match (id n : Nat) (sh : List DataListener)
    (h : ∀ l ∈ sh, l.idOf ≠ id) :
    gatherMap id n sh = ([], []) := by
  have := gatherMap_append_no_match id n sh [] h
  simpa using this

/-- Reducing the empty per-shard contribution changes nothing. -/
theorem gatherReduce_empty (res : QueryResults) :
    gatherReduce res ([], []) = res := rfl

/-- C8: during the gather phase a shard holding no listener with the
session's id contributes the default-constructed empty read/write tops
(`db/data_listeners.cc:144`), and the merged result over any set of shards
is exactly the merge over the remaining shards — a missing listener is
zero contribution, never a harvest failure. -/
theorem c8_missing_listener_zero_contribution (id n : Nat)
    (pre post : List (List DataListener)) (sh : List DataListener)
    (h : ∀ l ∈ sh, l.idOf ≠ id) :
    gatherMap id n sh = ([], []) ∧
    gatherShards id n (pre ++ sh :: post) = gatherShards id n (pre ++ post) := by
  have hz := gatherMap_of_no_match id n sh h
  refine ⟨hz, ?_⟩
  simp only [gatherShards, List.foldl_append, List.foldl_cons, hz, gatherReduce_empty]

/-- C8 witness: a shard holding only an unrelated listener drops out of a
concrete two-shard gather. -/
theorem c8_witness :
    gatherShards 7 2 [[freshToppListener 7 "ks" "t1"], [DataListener.base 3]]
      = gatherShards 7 2 [[freshToppListener 7 "ks" "t1"]] :=
  (c8_missing_listener_zero_contribution 7 2 [[freshToppListener 7 "ks" "t1"]] []
      [DataListener.base 3] (by decide)).2

/-- C10: in the per-shard harvest only the first listener whose id equals
the session id contributes (`gather`'s map returns at the first match,
`db/data_listeners.cc:131-143`), while `install` appends without
deduplicating ids (`db/data_listeners.cc:46-49`): installing two listeners
tagged with the same session id leaves both in the registry, yet the
harvested pair is the first one's tops, whatever the second one counted. -/
theorem c10_gather_first_matching_listener_only (ssid n : Nat)
    (pre : List DataListener) (t1 t2 : ToppListener)
    (hpre : ∀ l ∈ pre, l.idOf ≠ ssid) (h1 : t1.query_id = ssid)
    (_h2 : t2.query_id = ssid) :
    install (install pre (.topp t1)) (.topp t2) = pre ++ [.topp t1, .topp t2] ∧
    gatherMap ssid n (install (install pre (.topp t1)) (.topp t2))
      = (t1.top_k_read.top n, t1.top_k_write.top n) := by
  have hinst : install (install pre (.topp t1)) (.topp t2)
      = pre ++ [.topp t1, .topp t2] := by
    simp [install]
  refine ⟨hinst, ?_⟩
  rw [hinst, gatherMap_append_no_match ssid n pre [.topp t1, .topp t2] hpre]
  simp [gatherMap, h1]

/-- C10 witness: with two same-id listeners holding different counts, the
harvest returns the first listener's tops and the second's counts are
silently dropped. -/
theorem c10_witness :
    gatherMap 7 2 (install (install [DataListener.base 3]
        (.topp ⟨7, "ks", "t1", ⟨256, [⟨"aa", 5, 0⟩]⟩, ⟨256, [⟨"bb", 2, 0⟩]⟩⟩))
        (.topp ⟨7, "ks", "t1", ⟨256, [⟨"cc", 9, 0⟩]⟩, ⟨256, [⟨"dd", 4, 0⟩]⟩⟩))
      = ([⟨"aa", 5, 0⟩], [⟨"bb", 2, 0⟩]) :=
  ((c10_gather_first_matching_listener_only 7 2 [DataListener.base 3]
      ⟨7, "ks", "t1", ⟨256, [⟨"aa", 5, 0⟩]⟩, ⟨256, [⟨"bb", 2, 0⟩]⟩⟩
      ⟨7, "ks", "t1", ⟨256, [⟨"cc", 9, 0⟩]⟩, ⟨256, [⟨"dd", 4, 0⟩]⟩⟩
      (by decide) rfl rfl).2).trans (by decide)

/-! ## The read path -/

/-- The specification's description of wrapping a reader (spec §4.2
`on_read`, §8 read pass-through), stated independently of the
implementation: an applicable toppartitions listener comes out with every
partition key of the stream appended (hex-rendered) to its read estimator,
once per key, in stream order; a non-applicable or base-class listener
comes out unchanged. -/
def specObserveRead (s : Option Schema) (rd : List Partition) :
    DataListener → DataListener
  | .base i => .base i
  | .topp t =>
    if (DataListener.topp t).is_applicable s then
      .topp { t with
        top_k_read := rd.foldl (fun k p => k.append1 (to_hex p.key)) t.top_k_read }
    else .topp t

/-- Draining a filtering reader whose predicate always keeps the partition
emits the input stream unchanged and folds the side effect over the keys in
order. -/
theorem make_filtering_reader_keeps_all {σ : Type} (f : σ → String → σ)
    (rd : List Partition) (st : σ) :
    make_filtering_reader (fun st k => (f st k, true)) rd st
      = (rd, rd.foldl (fun st p => f st p.key) st) := by
  induction rd generalizing st with
  | nil => rfl
  | cons p ps ih => simp [make_filtering_reader, ih]

/-- C6: wrapping a reader through the registry
(`data_listeners::on_read`, `db/data_listeners.cc:71-79`, wrapping via
`partition_counting_listener::on_read`, `db/data_listeners.cc:38-44`)
emits exactly the partitions of the original reader — same list, hence
same set, order and contents — and its only effect on the listeners is the
specified one: each applicable listener's read estimator absorbs one
append per partition key flowing through the stream. -/
theorem c6_on_read_pass_through (s : Option Schema) (ls : List DataListener)
    (rd : List Partition) :
    data_listeners_on_read s ls rd = (ls.map (specObserveRead s rd), rd) := by
  induction ls with
  | nil => rfl
  | cons l tl ih =>
    cases l with
    | base i =>
      simp only [data_listeners_on_read, DataListener.is_applicable, if_pos,
        DataListener.on_read_wrap, ih, List.map_cons]
      rfl
    | topp t =>
      by_cases ha : (DataListener.topp t).is_applicable s = true
      · simp only [data_listeners_on_read, ha, if_true, DataListener.on_read_wrap,
          make_filtering_reader_keeps_all (fun est k => TopK.append1 est (to_hex k)) rd
            t.top_k_read]
        simp only [ih, List.map_cons, specObserveRead, ha, if_true]
      · simp only [data_listeners_on_read, ha, Bool.false_eq_true, if_false]
        rw [ih]
        simp only [List.map_cons, specObserveRead, ha]
        rfl

end Db
